import Mathlib

/-!
Shallow embedding of the phrase-location engine of `src/src/App.jsx`
(a React PDF viewer that locates configured phrases in per-page text
fragments and computes a bounding rectangle for highlighting).

Strings are modelled as `List Char`; JS `toLowerCase` as `Char.toLower`
mapped over the list (all configured strings are ASCII); JS numbers
(page coordinates) as `ℚ`.  The per-page fragment store
`pageTextBoxesRef.current` (a JS object keyed by page number) is
modelled as an association list; `Object.keys` on a JS object with
integer-like keys enumerates them in ascending numeric order, which is
modelled by sorting the (deduplicated) keys.
-/

namespace App

abbrev Str := List Char

/-- JS `s.toLowerCase()` on our list-of-characters strings. -/
def lowerStr (s : Str) : Str := s.map Char.toLower

/-- One entry of `pageTextBoxesRef.current[pageNum]` as built in
`extractTextContent`: the fragment text and its page-viewport geometry. -/
structure TextBox where
  str : Str
  left : ℚ
  top : ℚ
  width : ℚ
  height : ℚ
  pageNumber : ℕ
deriving DecidableEq

/-- The rectangle record returned by `calculateBoundingRect`. -/
structure Rect where
  left : ℚ
  top : ℚ
  width : ℚ
  height : ℚ
deriving DecidableEq

/-- The `{ page, rect }` record returned by `findPhrase`. -/
structure MatchResult where
  page : ℕ
  rect : Rect
deriving DecidableEq

/-- One entry of the `SEARCH_PHRASES` configuration object. -/
structure PhraseSpec where
  canonical : Str
  variations : List Str
  pageHint : Option ℕ
deriving DecidableEq

/-- The per-page fragment index `pageTextBoxesRef.current`. -/
abbrev Pages := List (ℕ × List TextBox)

/-- Used only to give `List.getD` a default; every access in the loop is
in bounds, so the default is never produced. -/
def defaultBox : TextBox := ⟨[], 0, 0, 0, 0, 0⟩

/-- `boxes.map(box => box.str).join(' ').toLowerCase()` — the page search
string built in `findPhrase` (line 263). -/
def pageText (boxes : List TextBox) : Str :=
  lowerStr (List.intercalate [' '] (boxes.map (·.str)))

/-- Loop body of `findMatchingTextBoxes`, first half (lines 295-296):
`currentText += boxes[i].str.toLowerCase(); currentBoxes.push(boxes[i])`. -/
def addBox (boxes : List TextBox) (i : ℕ) (st : Str × List TextBox) :
    Str × List TextBox :=
  (st.1 ++ lowerStr (boxes.getD i defaultBox).str, st.2 ++ [boxes.getD i defaultBox])

/-- Loop body of `findMatchingTextBoxes`, second half (lines 303-306):
when the buffer exceeds `searchText.length * 3`, set
`currentText = currentText.substring(boxes[Math.max(0, i - 10)].str.length)`
and `currentBoxes = currentBoxes.slice(1)`.  (`i - 10` is truncated
subtraction on `ℕ`, matching `Math.max(0, i - 10)`.) -/
def trimWindow (boxes : List TextBox) (searchText : Str) (i : ℕ)
    (st : Str × List TextBox) : Str × List TextBox :=
  if st.1.length > searchText.length * 3 then
    (st.1.drop (boxes.getD (i - 10) defaultBox).str.length, st.2.drop 1)
  else st

/-- The `for` loop of `findMatchingTextBoxes` (lines 294-307): add the
current box, return the window the moment the buffer contains the search
text, otherwise slide the window and continue; return `[]` (the untouched
`matchingBoxes`) when the scan exhausts the page.  The loop guard
`i < boxes.length` is represented structurally by the remaining suffix
`rem = boxes.drop i`, so the recursion is structural and computable by
the kernel. -/
def findMatchingTextBoxesGo (boxes : List TextBox) (searchText : Str) :
    List TextBox → ℕ → Str × List TextBox → List TextBox
  | [], _, _ => []
  | _ :: rem, i, st =>
    let st1 := addBox boxes i st
    if searchText <:+: st1.1 then st1.2
    else findMatchingTextBoxesGo boxes searchText rem (i + 1) (trimWindow boxes searchText i st1)

/-- `findMatchingTextBoxes(boxes, searchText)` (lines 289-310). -/
def findMatchingTextBoxes (boxes : List TextBox) (searchText : Str) : List TextBox :=
  findMatchingTextBoxesGo boxes searchText boxes 0 ([], [])

/-- State `(currentText, currentBoxes)` of the `findMatchingTextBoxes`
loop at entry of iteration `i`, for a scan that has not returned before
iteration `i` (the loop body applies `addBox` then, when no match
occurred, `trimWindow`; on a match the loop returns instead). -/
def scanState (boxes : List TextBox) (searchText : Str) : ℕ → Str × List TextBox
  | 0 => ([], [])
  | i + 1 => trimWindow boxes searchText i (addBox boxes i (scanState boxes searchText i))

/-- `Math.min(a, x)` where the accumulator `a` starts as `Infinity`,
modelled as `none`. -/
def updMin (a : Option ℚ) (x : ℚ) : Option ℚ :=
  match a with
  | none => some x
  | some y => some (if x ≤ y then x else y)

/-- `Math.max(a, x)` where the accumulator `a` starts as `-Infinity`,
modelled as `none`. -/
def updMax (a : Option ℚ) (x : ℚ) : Option ℚ :=
  match a with
  | none => some x
  | some y => some (if y ≤ x then x else y)

/-- `calculateBoundingRect(boxes)` (lines 313-334): the `Infinity` /
`-Infinity` starting accumulators are modelled as `none`; the early
return for an empty list means the accumulators are always `some` when
unwrapped. -/
def calculateBoundingRect (boxes : List TextBox) : Rect :=
  if boxes.isEmpty then ⟨0, 0, 0, 0⟩
  else
    let minLeft := boxes.foldl (fun a b => updMin a b.left) none
    let minTop := boxes.foldl (fun a b => updMin a b.top) none
    let maxRight := boxes.foldl (fun a b => updMax a (b.left + b.width)) none
    let maxBottom := boxes.foldl (fun a b => updMax a (b.top + b.height)) none
    ⟨minLeft.getD 0, minTop.getD 0,
      maxRight.getD 0 - minLeft.getD 0,
      maxBottom.getD 0 - minTop.getD 0⟩

/-- Inner `for (const variation of config.variations)` loop of
`findPhrase` (lines 266-281): lowercase the variation, test it against
the page search string, and on a hit resolve the fragment run; a run is
used only when non-empty, otherwise the next variation is tried. -/
def tryVariations (boxes : List TextBox) : List Str → Option Rect
  | [] => none
  | v :: rest =>
    let nv := lowerStr v
    if nv <:+: pageText boxes then
      let matchingBoxes := findMatchingTextBoxes boxes nv
      if 0 < matchingBoxes.length then some (calculateBoundingRect matchingBoxes)
      else tryVariations boxes rest
    else tryVariations boxes rest

/-- Outer `for (const pageNum of pagesToSearch)` loop of `findPhrase`
(lines 256-282): skip pages with no (or an empty) fragment list, return
`{ page, rect }` on the first page whose variation loop succeeds. -/
def searchPages (variations : List Str) : List ℕ → Pages → Option MatchResult
  | [], _ => none
  | p :: rest, pages =>
    match List.lookup p pages with
    | none => searchPages variations rest pages
    | some boxes =>
      if boxes.isEmpty then searchPages variations rest pages
      else
        match tryVariations boxes variations with
        | some rect => some ⟨p, rect⟩
        | none => searchPages variations rest pages

/-- `Object.keys(pages).map(p => parseInt(p))` (line 252): a JS object
with integer-like keys enumerates them in ascending numeric order. -/
def jsObjectKeys (pages : Pages) : List ℕ :=
  List.insertionSort (· ≤ ·) (pages.map Prod.fst).dedup

/-- `config.pageHint ? [config.pageHint] : Object.keys(pages)...` (line 252). -/
def pagesToSearch (cfg : PhraseSpec) (pages : Pages) : List ℕ :=
  match cfg.pageHint with
  | some h => [h]
  | none => jsObjectKeys pages

/-- Body of `findPhrase` after the configuration lookup (lines 251-285). -/
def findPhraseCfg (cfg : PhraseSpec) (pages : Pages) : Option MatchResult :=
  searchPages cfg.variations (pagesToSearch cfg pages) pages

/-- `findPhrase(referenceNumber)` (lines 247-286), with the configuration
object and the per-page fragment index it closes over made explicit. -/
def findPhraseWith (phrases : ℕ → Option PhraseSpec) (pages : Pages)
    (referenceNumber : ℕ) : Option MatchResult :=
  match phrases referenceNumber with
  | none => none
  | some cfg => findPhraseCfg cfg pages

/-- The `SEARCH_PHRASES` configuration constant (lines 19-54). -/
def SEARCH_PHRASES : ℕ → Option PhraseSpec
  | 1 => some ⟨"EBITDA of USD 2.3 bn".data,
      ["ebitda of usd 2.3 bn".data, "ebitda of usd 2.3bn".data,
       "ebitda usd 2.3 bn".data, "ebitda 2.3 bn".data,
       "ebitda of 2.3 bn".data, "2.3 bn".data], some 3⟩
  | 2 => some ⟨"Ocean revenue increased by 2.4%".data,
      ["ocean revenue increased by 2.4%".data, "revenue increased by 2.4%".data,
       "ocean revenue increased".data, "increased by 2.4%".data, "2.4%".data], some 5⟩
  | 3 => some ⟨"Gain on sale of non-current assets".data,
      ["gain on sale of non-current assets".data, "gain on sale".data,
       "non-current assets".data, "sale of assets".data, "25 208".data], some 15⟩
  | _ => none

/-- `findPhrase` of the source: `findPhraseWith` at the constant
configuration. -/
def findPhrase (pages : Pages) (referenceNumber : ℕ) : Option MatchResult :=
  findPhraseWith SEARCH_PHRASES pages referenceNumber


/-- Whether a variation fully matches on a page: the spec's coarse
existence check succeeds and fragment-run resolution returns a
non-empty run. -/
def varMatches (boxes : List TextBox) (v : Str) : Bool :=
  decide (lowerStr v <:+: pageText boxes) && !(findMatchingTextBoxes boxes (lowerStr v)).isEmpty

/-- Whether a candidate (page, variation) pair matches: the page is
indexed with a non-empty fragment list and the variation fully matches
on it. -/
def pairMatches (pages : Pages) (pv : ℕ × Str) : Bool :=
  match List.lookup pv.1 pages with
  | none => false
  | some boxes => !boxes.isEmpty && varMatches boxes pv.2

/-- The rectangle a matching (page, variation) pair produces. -/
def pairRect (pages : Pages) (pv : ℕ × Str) : Rect :=
  match List.lookup pv.1 pages with
  | some boxes => calculateBoundingRect (findMatchingTextBoxes boxes (lowerStr pv.2))
  | none => ⟨0, 0, 0, 0⟩

/-- Spec-side description of the locate tie-break rule: enumerate the
candidate (page, variation) pairs — candidate pages in order, and for
each page the variations in listed order — and return the result of the
first pair that matches, with no attempt to find a better one. -/
def locateSpec (cfg : PhraseSpec) (pages : Pages) : Option MatchResult :=
  let cand := (pagesToSearch cfg pages).flatMap (fun p => cfg.variations.map (fun v => (p, v)))
  (cand.find? (pairMatches pages)).map (fun pv => ⟨pv.1, pairRect pages pv⟩)


/-! ### Highlight state (claim C9)

The pieces of the component state `state` touched by `updateState`, and
the number of `.highlight` elements in the document.  `createHighlight`
(lines 217-244) first calls `clearHighlights` (lines 212-215), bails out
returning `false` when the target page container is not in the document,
and otherwise appends exactly one `.highlight` element and stores
`{ pageNumber, rect }`. -/

structure AppState where
  pdfjsLoaded : Bool
  pdfDoc : Bool
  loading : Bool
  error : Option Str
  currentHighlight : Option (ℕ × Rect)
deriving DecidableEq

/-- A world: the component state plus the number of `.highlight` DOM
nodes in the document. -/
structure World where
  state : AppState
  highlightCount : ℕ
deriving DecidableEq

/-- `clearHighlights` (lines 212-215): remove every `.highlight` element
and set `currentHighlight: null`. -/
def clearHighlights (w : World) : World :=
  ⟨{ w.state with currentHighlight := none }, 0⟩

/-- `createHighlight(pageNumber, rect)` (lines 217-244); `containerExists`
models whether the page container for a page number is in the document. -/
def createHighlight (containerExists : ℕ → Bool) (pageNumber : ℕ) (rect : Rect)
    (w : World) : World × Bool :=
  let w := clearHighlights w
  if containerExists pageNumber then
    (⟨{ w.state with currentHighlight := some (pageNumber, rect) }, w.highlightCount + 1⟩, true)
  else (w, false)

/-- `script.onload` handler (line 76): `updateState({ pdfjsLoaded: true })`. -/
def onScriptLoad (w : World) : World :=
  ⟨{ w.state with pdfjsLoaded := true }, w.highlightCount⟩

/-- `script.onerror` handler (line 77): `updateState({ error: ... })`. -/
def onScriptError (msg : Str) (w : World) : World :=
  ⟨{ w.state with error := some msg }, w.highlightCount⟩

/-- Load start (line 92): `updateState({ loading: true, error: null })`. -/
def onLoadStart (w : World) : World :=
  ⟨{ w.state with loading := true, error := none }, w.highlightCount⟩

/-- Document arrival (line 107): `updateState({ pdfDoc: doc })`. -/
def onDocLoaded (w : World) : World :=
  ⟨{ w.state with pdfDoc := true }, w.highlightCount⟩

/-- Load completion (line 113): `updateState({ loading: false })`. -/
def onLoadDone (w : World) : World :=
  ⟨{ w.state with loading := false }, w.highlightCount⟩

/-- Load failure (lines 117-120): `updateState({ error: ..., loading: false })`. -/
def onLoadFail (msg : Str) (w : World) : World :=
  ⟨{ w.state with error := some msg, loading := false }, w.highlightCount⟩

/-! ### Concrete inputs used by witnesses and counterexamples -/

/-- A page-3 fragment carrying search phrase 1 in lowercase. -/
def goodBox : TextBox := ⟨"ebitda of usd 2.3 bn".data, 10, 20, 100, 12, 3⟩

def goodPages : Pages := [(3, [goodBox])]

/-- The same fragment with the source text in its original upper case. -/
def upperBox : TextBox := ⟨"EBITDA of USD 2.3 bn".data, 10, 20, 100, 12, 3⟩

def upperPages : Pages := [(3, [upperBox])]

/-- A page-3 fragment on which no variation of phrase 1 occurs. -/
def missBox : TextBox := ⟨"hello world".data, 0, 0, 5, 5, 3⟩

def missPages : Pages := [(3, [missBox])]

/-- Phrase 1 split across a fragment boundary: the space-joined page
search string contains the first variation but the non-space-joined
buffer never does. -/
def split1 : TextBox := ⟨"ebitda".data, 0, 0, 6, 1, 3⟩

def split2 : TextBox := ⟨"of usd 2.3 bn".data, 6, 0, 13, 1, 3⟩

def splitPages : Pages := [(3, [split1, split2])]

/-- Fragments exhibiting the window-trim defect: at iteration 2 the loop
drops `B1` (10 characters) from the window but trims the buffer by the
length of `boxes[0]` (1 character), leaking `zzzzzzzzb` into the buffer;
at iteration 3 the buffer contains `bcd` although the window is only
`[B2, B3]`. -/
def B0 : TextBox := ⟨"a".data, 0, 0, 1, 1, 1⟩

def B1 : TextBox := ⟨"zzzzzzzzzb".data, 1, 0, 1, 1, 1⟩

def B2 : TextBox := ⟨"c".data, 2, 0, 1, 1, 1⟩

def B3 : TextBox := ⟨"d".data, 3, 0, 1, 1, 1⟩

def B4 : TextBox := ⟨"bcd".data, 4, 0, 1, 1, 1⟩

def bugBoxes : List TextBox := [B0, B1, B2, B3, B4]

def bugPages : Pages := [(1, bugBoxes)]

/-- A one-variation configuration for the `bugBoxes` page. -/
def bugPhrases : ℕ → Option PhraseSpec
  | 1 => some ⟨"bcd".data, ["bcd".data], some 1⟩
  | _ => none

/-- Fragments on which the trim amount (always `boxes[0].str.length = 1`
while `i ≤ 10`) differs from the dropped fragment's length from the
second trim on, desynchronising buffer and window. -/
def A0 : TextBox := ⟨"a".data, 0, 0, 1, 1, 1⟩

def A1 : TextBox := ⟨"bc".data, 1, 0, 1, 1, 1⟩

def A2 : TextBox := ⟨"de".data, 2, 0, 1, 1, 1⟩

def A3 : TextBox := ⟨"fg".data, 3, 0, 1, 1, 1⟩

def cBoxes : List TextBox := [A0, A1, A2, A3]

/-- Fragments whose first entry is empty: every trim removes
`boxes[0].str.length = 0` characters, so the buffer grows past any
`3·L + max fragment length` bound. -/
def E0 : TextBox := ⟨"".data, 0, 0, 1, 1, 1⟩

def E1 : TextBox := ⟨"aaaaa".data, 1, 0, 1, 1, 1⟩

def E2 : TextBox := ⟨"bbbbb".data, 2, 0, 1, 1, 1⟩

def E3 : TextBox := ⟨"ccccc".data, 3, 0, 1, 1, 1⟩

def eBoxes : List TextBox := [E0, E1, E2, E3]

/-- Maximum fragment text length on a page. -/
def maxFragLen (boxes : List TextBox) : ℕ :=
  (boxes.map (·.str.length)).foldr max 0

/-- Total fragment text length on a page. -/
def totalFragLen (boxes : List TextBox) : ℕ :=
  (boxes.map (·.str.length)).sum

/-! ### Case normalisation (claim C6)

Two fragments, pages or variation lists that differ only in letter case
normalise identically under `normBox` / `normPages` / `lowerStr`. -/

/-- A fragment with its text lower-cased; geometry untouched. -/
def normBox (b : TextBox) : TextBox := { b with str := lowerStr b.str }

/-- A page index with every fragment text lower-cased. -/
def normPages (pages : Pages) : Pages :=
  pages.map (fun pb => (pb.1, pb.2.map normBox))

end App

namespace App

/-! ## Bounding-rectangle lemmas -/

lemma updMin_none (x : ℚ) : updMin none x = some x := rfl

lemma updMax_none (x : ℚ) : updMax none x = some x := rfl

lemma updMin_some (y x : ℚ) : updMin (some y) x = some (min x y) := by
  simp [updMin, min_def]

lemma updMax_some (y x : ℚ) : updMax (some y) x = some (max y x) := by
  simp [updMax, max_def]

lemma foldl_updMin_some (g : TextBox → ℚ) :
    ∀ (l : List TextBox) (a : ℚ),
      ∃ m, l.foldl (fun acc x => updMin acc (g x)) (some a) = some m ∧
        (m = a ∨ m ∈ l.map g) ∧ m ≤ a ∧ ∀ x ∈ l.map g, m ≤ x := by
  intro l
  induction l with
  | nil => exact fun a => ⟨a, rfl, Or.inl rfl, le_refl a, by simp⟩
  | cons c t ih =>
    intro a
    obtain ⟨m, hf, hm, hle, hall⟩ := ih (min (g c) a)
    refine ⟨m, ?_, ?_, hle.trans (min_le_right _ _), ?_⟩
    · simpa [updMin_some] using hf
    · rcases hm with h | h
      · rcases min_choice (g c) a with h2 | h2
        · exact Or.inr (by simp [List.map_cons, h, h2])
        · exact Or.inl (h.trans h2)
      · exact Or.inr (List.mem_cons_of_mem _ h)
    · intro x hx
      rw [List.map_cons, List.mem_cons] at hx
      rcases hx with rfl | hx
      · exact hle.trans (min_le_left _ _)
      · exact hall x hx

lemma foldl_updMax_some (g : TextBox → ℚ) :
    ∀ (l : List TextBox) (a : ℚ),
      ∃ m, l.foldl (fun acc x => updMax acc (g x)) (some a) = some m ∧
        (m = a ∨ m ∈ l.map g) ∧ a ≤ m ∧ ∀ x ∈ l.map g, x ≤ m := by
  intro l
  induction l with
  | nil => exact fun a => ⟨a, rfl, Or.inl rfl, le_refl a, by simp⟩
  | cons c t ih =>
    intro a
    obtain ⟨m, hf, hm, hle, hall⟩ := ih (max a (g c))
    refine ⟨m, ?_, ?_, (le_max_left _ _).trans hle, ?_⟩
    · simpa [updMax_some] using hf
    · rcases hm with h | h
      · rcases max_choice a (g c) with h2 | h2
        · exact Or.inl (h.trans h2)
        · exact Or.inr (by simp [List.map_cons, h, h2])
      · exact Or.inr (List.mem_cons_of_mem _ h)
    · intro x hx
      rw [List.map_cons, List.mem_cons] at hx
      rcases hx with rfl | hx
      · exact (le_max_right _ _).trans hle
      · exact hall x hx

lemma calculateBoundingRect_cons (c : TextBox) (t : List TextBox) :
    calculateBoundingRect (c :: t) =
      ⟨(t.foldl (fun a b => updMin a b.left) (some c.left)).getD 0,
       (t.foldl (fun a b => updMin a b.top) (some c.top)).getD 0,
       (t.foldl (fun a b => updMax a (b.left + b.width)) (some (c.left + c.width))).getD 0 -
         (t.foldl (fun a b => updMin a b.left) (some c.left)).getD 0,
       (t.foldl (fun a b => updMax a (b.top + b.height)) (some (c.top + c.height))).getD 0 -
         (t.foldl (fun a b => updMin a b.top) (some c.top)).getD 0⟩ := rfl

lemma calculateBoundingRect_spec (boxes : List TextBox) (h : boxes ≠ []) :
    ∃ mL mT mR mB,
      calculateBoundingRect boxes = ⟨mL, mT, mR - mL, mB - mT⟩ ∧
      (mL ∈ boxes.map (·.left) ∧ ∀ x ∈ boxes.map (·.left), mL ≤ x) ∧
      (mT ∈ boxes.map (·.top) ∧ ∀ x ∈ boxes.map (·.top), mT ≤ x) ∧
      (mR ∈ boxes.map (fun b => b.left + b.width) ∧
        ∀ x ∈ boxes.map (fun b => b.left + b.width), x ≤ mR) ∧
      (mB ∈ boxes.map (fun b => b.top + b.height) ∧
        ∀ x ∈ boxes.map (fun b => b.top + b.height), x ≤ mB) := by
  obtain ⟨c, t, rfl⟩ := List.exists_cons_of_ne_nil h
  obtain ⟨mL, hLf, hLm, hLle, hLall⟩ := foldl_updMin_some (·.left) t c.left
  obtain ⟨mT, hTf, hTm, hTle, hTall⟩ := foldl_updMin_some (·.top) t c.top
  obtain ⟨mR, hRf, hRm, hRle, hRall⟩ := foldl_updMax_some (fun b => b.left + b.width) t (c.left + c.width)
  obtain ⟨mB, hBf, hBm, hBle, hBall⟩ := foldl_updMax_some (fun b => b.top + b.height) t (c.top + c.height)
  refine ⟨mL, mT, mR, mB, ?_, ⟨?_, ?_⟩, ⟨?_, ?_⟩, ⟨?_, ?_⟩, ⟨?_, ?_⟩⟩
  · rw [calculateBoundingRect_cons, hLf, hTf, hRf, hBf]
    rfl
  · rcases hLm with h' | h'
    · exact h' ▸ List.mem_map_of_mem _ (List.mem_cons_self _ _)
    · exact List.mem_cons_of_mem _ h'
  · intro x hx
    rw [List.map_cons, List.mem_cons] at hx
    rcases hx with rfl | hx
    · exact hLle
    · exact hLall x hx
  · rcases hTm with h' | h'
    · exact h' ▸ List.mem_map_of_mem _ (List.mem_cons_self _ _)
    · exact List.mem_cons_of_mem _ h'
  · intro x hx
    rw [List.map_cons, List.mem_cons] at hx
    rcases hx with rfl | hx
    · exact hTle
    · exact hTall x hx
  · rcases hRm with h' | h'
    · exact h' ▸ List.mem_map_of_mem _ (List.mem_cons_self _ _)
    · exact List.mem_cons_of_mem _ h'
  · intro x hx
    rw [List.map_cons, List.mem_cons] at hx
    rcases hx with rfl | hx
    · exact hRle
    · exact hRall x hx
  · rcases hBm with h' | h'
    · exact h' ▸ List.mem_map_of_mem _ (List.mem_cons_self _ _)
    · exact List.mem_cons_of_mem _ h'
  · intro x hx
    rw [List.map_cons, List.mem_cons] at hx
    rcases hx with rfl | hx
    · exact hBle
    · exact hBall x hx

/-! ## Claim C4 -/

/-- C4: for every non-empty fragment run, the bounding rectangle equals
exactly the min/max reduction — `left` is the minimum `origin.x`, `top`
the minimum `origin.y`, `left + width` the maximum `origin.x + width`,
and `top + height` the maximum `origin.y + height` over the run's
fragments, with no slack or padding. -/
theorem boundingRect_exact_minmax (boxes : List TextBox) (h : boxes ≠ []) :
    ((calculateBoundingRect boxes).left ∈ boxes.map (·.left) ∧
      ∀ x ∈ boxes.map (·.left), (calculateBoundingRect boxes).left ≤ x) ∧
    ((calculateBoundingRect boxes).top ∈ boxes.map (·.top) ∧
      ∀ x ∈ boxes.map (·.top), (calculateBoundingRect boxes).top ≤ x) ∧
    ((calculateBoundingRect boxes).left + (calculateBoundingRect boxes).width
        ∈ boxes.map (fun b => b.left + b.width) ∧
      ∀ x ∈ boxes.map (fun b => b.left + b.width),
        x ≤ (calculateBoundingRect boxes).left + (calculateBoundingRect boxes).width) ∧
    ((calculateBoundingRect boxes).top + (calculateBoundingRect boxes).height
        ∈ boxes.map (fun b => b.top + b.height) ∧
      ∀ x ∈ boxes.map (fun b => b.top + b.height),
        x ≤ (calculateBoundingRect boxes).top + (calculateBoundingRect boxes).height) := by
  obtain ⟨mL, mT, mR, mB, heq, hL, hT, hR, hB⟩ := calculateBoundingRect_spec boxes h
  rw [heq]
  have hw : mL + (mR - mL) = mR := by ring
  have hh : mT + (mB - mT) = mB := by ring
  refine ⟨⟨hL.1, hL.2⟩, ⟨hT.1, hT.2⟩, ?_, ?_⟩
  · show mL + (mR - mL) ∈ _ ∧ ∀ x ∈ _, x ≤ mL + (mR - mL)
    rw [hw]
    exact hR
  · show mT + (mB - mT) ∈ _ ∧ ∀ x ∈ _, x ≤ mT + (mB - mT)
    rw [hh]
    exact hB

/-- Witness for C4 at the two-fragment page-3 run. -/
theorem boundingRect_exact_minmax_witness :
    (calculateBoundingRect [split1, split2]).left ∈ [split1, split2].map (·.left) ∧
      ∀ x ∈ [split1, split2].map (·.left), (calculateBoundingRect [split1, split2]).left ≤ x :=
  (boundingRect_exact_minmax [split1, split2] (by decide)).1

/-! ## Run membership and result inversion -/

lemma trimWindow_subset (boxes : List TextBox) (s : Str) (i : ℕ)
    (st : Str × List TextBox) : ∀ b ∈ (trimWindow boxes s i st).2, b ∈ st.2 := by
  intro b hb
  rw [trimWindow] at hb
  split at hb
  · exact List.drop_subset _ _ hb
  · exact hb

lemma findMatchingTextBoxesGo_subset (boxes : List TextBox) (s : Str) :
    ∀ (rem : List TextBox) (i : ℕ) (st : Str × List TextBox),
      i + rem.length ≤ boxes.length →
      (∀ b ∈ st.2, b ∈ boxes) →
      ∀ b ∈ findMatchingTextBoxesGo boxes s rem i st, b ∈ boxes := by
  intro rem
  induction rem with
  | nil =>
    intro i st _ _ b hb
    rw [findMatchingTextBoxesGo] at hb
    exact absurd hb (List.not_mem_nil b)
  | cons c rem ih =>
    intro i st hlen hst b hb
    have hi : i < boxes.length := by
      rw [List.length_cons] at hlen
      omega
    have hget : boxes.getD i defaultBox ∈ boxes := by
      rw [List.getD_eq_getElem?_getD, List.getElem?_eq_getElem hi]
      exact List.getElem_mem hi
    have hst1 : ∀ x ∈ (addBox boxes i st).2, x ∈ boxes := by
      intro x hx
      rw [addBox] at hx
      rcases List.mem_append.mp hx with h | h
      · exact hst x h
      · rw [List.mem_singleton] at h
        exact h ▸ hget
    rw [findMatchingTextBoxesGo] at hb
    split at hb
    · exact hst1 b hb
    · refine ih (i + 1) _ ?_ ?_ b hb
      · rw [List.length_cons] at hlen
        omega
      · intro x hx
        exact hst1 x (trimWindow_subset boxes s i _ x hx)

lemma findMatchingTextBoxes_subset (boxes : List TextBox) (s : Str) :
    ∀ b ∈ findMatchingTextBoxes boxes s, b ∈ boxes :=
  findMatchingTextBoxesGo_subset boxes s boxes 0 ([], [])
    (by simp) (by intro b hb; exact absurd hb (List.not_mem_nil b))

lemma tryVariations_eq_some (boxes : List TextBox) :
    ∀ (vars : List Str) (r : Rect),
      tryVariations boxes vars = some r →
      ∃ v ∈ vars, findMatchingTextBoxes boxes (lowerStr v) ≠ [] ∧
        lowerStr v <:+: pageText boxes ∧
        r = calculateBoundingRect (findMatchingTextBoxes boxes (lowerStr v)) := by
  intro vars
  induction vars with
  | nil =>
    intro r hr
    rw [tryVariations] at hr
    exact absurd hr (by simp)
  | cons v rest ih =>
    intro r hr
    simp only [tryVariations] at hr
    by_cases h1 : lowerStr v <:+: pageText boxes
    · rw [if_pos h1] at hr
      by_cases h2 : 0 < (findMatchingTextBoxes boxes (lowerStr v)).length
      · rw [if_pos h2] at hr
        exact ⟨v, List.mem_cons_self v rest,
          List.ne_nil_of_length_pos h2, h1, (Option.some.inj hr).symm⟩
      · rw [if_neg h2] at hr
        obtain ⟨v', hv', h⟩ := ih r hr
        exact ⟨v', List.mem_cons_of_mem v hv', h⟩
    · rw [if_neg h1] at hr
      obtain ⟨v', hv', h⟩ := ih r hr
      exact ⟨v', List.mem_cons_of_mem v hv', h⟩

lemma searchPages_eq_some (variations : List Str) :
    ∀ (ps : List ℕ) (pages : Pages) (res : MatchResult),
      searchPages variations ps pages = some res →
      res.page ∈ ps ∧ ∃ boxes, List.lookup res.page pages = some boxes ∧ boxes ≠ [] ∧
        ∃ v ∈ variations, findMatchingTextBoxes boxes (lowerStr v) ≠ [] ∧
          lowerStr v <:+: pageText boxes ∧
          res.rect = calculateBoundingRect (findMatchingTextBoxes boxes (lowerStr v)) := by
  intro ps
  induction ps with
  | nil =>
    intro pages res h
    rw [searchPages] at h
    exact absurd h (by simp)
  | cons p rest ih =>
    intro pages res h
    rw [searchPages] at h
    cases hlk : List.lookup p pages with
    | none =>
      rw [hlk] at h
      obtain ⟨hmem, rest'⟩ := ih pages res h
      exact ⟨List.mem_cons_of_mem p hmem, rest'⟩
    | some boxes =>
      rw [hlk] at h
      dsimp only at h
      by_cases hemp : boxes.isEmpty
      · rw [if_pos hemp] at h
        obtain ⟨hmem, rest'⟩ := ih pages res h
        exact ⟨List.mem_cons_of_mem p hmem, rest'⟩
      · rw [if_neg hemp] at h
        cases htv : tryVariations boxes variations with
        | none =>
          rw [htv] at h
          obtain ⟨hmem, rest'⟩ := ih pages res h
          exact ⟨List.mem_cons_of_mem p hmem, rest'⟩
        | some rect =>
          rw [htv] at h
          obtain rfl := (Option.some.inj h).symm
          obtain ⟨v, hv, hrun, hocc, hr⟩ := tryVariations_eq_some boxes variations rect htv
          exact ⟨List.mem_cons_self p rest, boxes, hlk,
            fun he => hemp (he ▸ rfl), v, hv, hrun, hocc, hr⟩

lemma lookup_mem :
    ∀ (pages : Pages) (p : ℕ) (bs : List TextBox),
      List.lookup p pages = some bs → (p, bs) ∈ pages := by
  intro pages
  induction pages with
  | nil =>
    intro p bs h
    rw [List.lookup] at h
    exact absurd h (by simp)
  | cons e rest ih =>
    intro p bs h
    rw [List.lookup] at h
    split at h
    · rename_i heq
      obtain rfl := Option.some.inj h
      have hp : p = e.1 := eq_of_beq heq
      rw [hp]
      exact List.mem_cons_self e rest
    · exact List.mem_cons_of_mem e (ih p bs h)

/-! ## Claim C10 -/

/-- C10: whenever the index only holds fragments with non-negative width
and height, any result `findPhrase` returns carries a rectangle with
non-negative width and height; and the bounding-rect computation maps
the empty run to the zero rectangle instead of failing. -/
theorem findPhrase_result_nonneg :
    (∀ (phrases : ℕ → Option PhraseSpec) (pages : Pages) (ref : ℕ) (res : MatchResult),
        (∀ pb ∈ pages, ∀ b ∈ pb.2, 0 ≤ b.width ∧ 0 ≤ b.height) →
        findPhraseWith phrases pages ref = some res →
        0 ≤ res.rect.width ∧ 0 ≤ res.rect.height) ∧
      calculateBoundingRect [] = ⟨0, 0, 0, 0⟩ := by
  constructor
  · intro phrases pages ref res hnn h
    rw [findPhraseWith] at h
    cases hcfg : phrases ref with
    | none =>
      rw [hcfg] at h
      exact absurd h (by simp)
    | some cfg =>
      rw [hcfg] at h
      obtain ⟨_, boxes, hlk, _, v, _, hrun, _, hrect⟩ :=
        searchPages_eq_some cfg.variations (pagesToSearch cfg pages) pages res h
      obtain ⟨mL, mT, mR, mB, heq, hL, hT, hR, hB⟩ :=
        calculateBoundingRect_spec (findMatchingTextBoxes boxes (lowerStr v)) hrun
      rw [hrect, heq]
      obtain ⟨b, hb⟩ := List.exists_mem_of_ne_nil _ hrun
      have hbbox : b ∈ boxes := findMatchingTextBoxes_subset boxes (lowerStr v) b hb
      have hpb := hnn (res.page, boxes) (lookup_mem pages res.page boxes hlk) b hbbox
      have h1 : mL ≤ b.left := hL.2 _ (List.mem_map_of_mem _ hb)
      have h2 : b.left + b.width ≤ mR := hR.2 _ (List.mem_map_of_mem _ hb)
      have h3 : mT ≤ b.top := hT.2 _ (List.mem_map_of_mem _ hb)
      have h4 : b.top + b.height ≤ mB := hB.2 _ (List.mem_map_of_mem _ hb)
      constructor
      · show (0 : ℚ) ≤ mR - mL
        have := hpb.1
        linarith
      · show (0 : ℚ) ≤ mB - mT
        have := hpb.2
        linarith
  · rfl

/-- Witness for C10 at reference 1 on a concrete index. -/
theorem findPhrase_result_nonneg_witness :
    0 ≤ (MatchResult.mk 3 ⟨10, 20, 100, 12⟩).rect.width ∧
      0 ≤ (MatchResult.mk 3 ⟨10, 20, 100, 12⟩).rect.height :=
  findPhrase_result_nonneg.1 SEARCH_PHRASES goodPages 1 ⟨3, ⟨10, 20, 100, 12⟩⟩
    (by with_unfolding_all decide) (by with_unfolding_all decide)

/-! ## Claim C1 -/

/-- C1 (code defect, at a concrete input): on page `bugBoxes` with
variation "bcd", the coarse space-joined check passes and `findPhrase`
returns a result, but the fragment run resolution used is `[B2, B3]`,
whose concatenated lowercased text "cd" does not contain the variation.
The window trim (line 304) removes `boxes[Math.max(0, i - 10)].str.length`
characters — not the dropped fragment's length — so buffer text from the
dropped fragment `B1` leaks and produces a phantom match. -/
theorem run_concat_contains_code_bug :
    "bcd".data <:+: pageText bugBoxes ∧
    findMatchingTextBoxes bugBoxes "bcd".data = [B2, B3] ∧
    ¬ ("bcd".data <:+: lowerStr (List.flatten ([B2, B3].map (·.str)))) ∧
    findPhraseWith bugPhrases bugPages 1 = some ⟨1, calculateBoundingRect [B2, B3]⟩ :=
  ⟨by decide, by decide, by decide, by with_unfolding_all decide⟩

/-! ## Claim C2 -/

/-- C2 (code defect, at a concrete input): scanning `cBoxes` for the
never-matching variation "z", the state at entry of iteration 4 is the
buffer "cdefg" with window `[A2, A3]`, whose lowercased concatenation is
"defg" — after that step the buffer is NOT the concatenation of the
window's texts, because the trim removed `boxes[0].str.length = 1`
characters while dropping the two-character fragment `A1`. -/
theorem buffer_equals_window_code_bug :
    findMatchingTextBoxes cBoxes "z".data = [] ∧
    scanState cBoxes "z".data 4 = ("cdefg".data, [A2, A3]) ∧
    (scanState cBoxes "z".data 4).1 ≠
      lowerStr (List.flatten ((scanState cBoxes "z".data 4).2.map (·.str))) :=
  ⟨by decide, by decide, by decide⟩

/-! ## Claim C7 -/

/-- C7 counterexample: on `eBoxes` (first fragment empty) with the
never-matching variation "z" (length 1), the buffer at entry of
iteration 3 has length 10, exceeding `3·L + max fragment length = 8`:
every trim removes `boxes[0].str.length = 0` characters. -/
theorem scan_buffer_bound_counterexample :
    findMatchingTextBoxes eBoxes "z".data = [] ∧
    (scanState eBoxes "z".data 3).1.length = 10 ∧
    maxFragLen eBoxes = 5 ∧
    ¬ ((scanState eBoxes "z".data 3).1.length ≤ 3 * ("z".data).length + maxFragLen eBoxes) :=
  ⟨by decide, by decide, by decide, by decide⟩

/-- C7 amended: fragment-run resolution visits each fragment at most
once — at every step the window is a contiguous suffix of the first `i`
fragments — and the buffer length is bounded by the total text length of
the fragments scanned so far (the claimed `3·L + max fragment length`
bound does not hold). -/
theorem scan_visits_once_total_bound (boxes : List TextBox) (searchText : Str)
    (i : ℕ) (hi : i ≤ boxes.length) :
    (scanState boxes searchText i).1.length ≤ totalFragLen (boxes.take i) ∧
    (scanState boxes searchText i).2 <:+ boxes.take i := by
  induction i with
  | zero => exact ⟨by simp [scanState, totalFragLen], by simp [scanState]⟩
  | succ i ih =>
    obtain ⟨hlen, hsuf⟩ := ih (Nat.le_of_succ_le hi)
    have hil : i < boxes.length := hi
    have hget : boxes.getD i defaultBox = boxes[i] := by
      rw [List.getD_eq_getElem?_getD, List.getElem?_eq_getElem hil]
      rfl
    have htake : boxes.take (i + 1) = boxes.take i ++ [boxes[i]] := by
      rw [List.take_succ, List.getElem?_eq_getElem hil]
      rfl
    have htotal : totalFragLen (boxes.take (i + 1)) =
        totalFragLen (boxes.take i) + boxes[i].str.length := by
      rw [totalFragLen, totalFragLen, List.map_take, List.map_take]
      rw [List.sum_take_succ _ i (by simpa using hil)]
      simp
    have hadd1 : (addBox boxes i (scanState boxes searchText i)).1.length ≤
        totalFragLen (boxes.take (i + 1)) := by
      rw [addBox]
      simp only [List.length_append, lowerStr, List.length_map, hget, htotal]
      omega
    have hadd2 : (addBox boxes i (scanState boxes searchText i)).2 <:+ boxes.take (i + 1) := by
      rw [addBox, htake, hget]
      obtain ⟨w, hw⟩ := hsuf
      exact ⟨w, by rw [← List.append_assoc, hw]⟩
    constructor
    · show (trimWindow boxes searchText i (addBox boxes i (scanState boxes searchText i))).1.length ≤ _
      rw [trimWindow]
      split
      · calc (List.drop _ _).length ≤ (addBox boxes i (scanState boxes searchText i)).1.length := by
              rw [List.length_drop]
              omega
          _ ≤ _ := hadd1
      · exact hadd1
    · show (trimWindow boxes searchText i (addBox boxes i (scanState boxes searchText i))).2 <:+ _
      rw [trimWindow]
      split
      · exact (List.drop_suffix 1 _).trans hadd2
      · exact hadd2

/-- Witness for the amended C7 on a concrete scan. -/
theorem scan_visits_once_total_bound_witness :
    (scanState eBoxes "z".data 4).1.length ≤ totalFragLen (eBoxes.take 4) ∧
      (scanState eBoxes "z".data 4).2 <:+ eBoxes.take 4 :=
  scan_visits_once_total_bound eBoxes "z".data 4 (by decide)

/-! ## Claim C3 -/

/-- C3 counterexample: on `splitPages` (only candidate page 3, by the
page hint) the first variation of reference 1 occurs in the space-joined
page search string, fragment-run resolution returns no run for it — yet
`findPhrase` succeeds on the same page via the later variation "2.3 bn"
instead of moving to the next page and returning absent. -/
theorem next_variation_counterexample :
    lowerStr "ebitda of usd 2.3 bn".data <:+: pageText [split1, split2] ∧
    findMatchingTextBoxes [split1, split2] (lowerStr "ebitda of usd 2.3 bn".data) = [] ∧
    findPhrase splitPages 1 = some ⟨3, ⟨0, 0, 19, 1⟩⟩ :=
  ⟨by decide, by decide, by with_unfolding_all decide⟩

/-- C3 amended: when a variation occurs in the page search string but
fragment-run resolution yields no run, `findPhrase` continues with the
next variation on the same page; a page is abandoned only after all its
variations fail. -/
theorem next_variation_same_page (boxes : List TextBox) (v : Str) (rest : List Str)
    (hocc : lowerStr v <:+: pageText boxes)
    (hrun : findMatchingTextBoxes boxes (lowerStr v) = []) :
    tryVariations boxes (v :: rest) = tryVariations boxes rest := by
  simp only [tryVariations]
  rw [if_pos hocc, hrun]
  simp

/-- Witness for the amended C3 at the split-fragment page. -/
theorem next_variation_same_page_witness :
    tryVariations [split1, split2] ("ebitda of usd 2.3 bn".data :: ["2.3 bn".data]) =
      tryVariations [split1, split2] ["2.3 bn".data] :=
  next_variation_same_page [split1, split2] "ebitda of usd 2.3 bn".data ["2.3 bn".data]
    (by decide) (by decide)

/-! ## Claim C8 -/

lemma searchPages_none (variations : List Str) :
    ∀ (ps : List ℕ) (pages : Pages),
      (∀ p ∈ ps, ∀ boxes, List.lookup p pages = some boxes →
        tryVariations boxes variations = none) →
      searchPages variations ps pages = none := by
  intro ps
  induction ps with
  | nil => intro pages _; rfl
  | cons p rest ih =>
    intro pages hall
    rw [searchPages]
    cases hlk : List.lookup p pages with
    | none => exact ih pages (fun q hq => hall q (List.mem_cons_of_mem p hq))
    | some boxes =>
      dsimp only
      by_cases hemp : boxes.isEmpty
      · rw [if_pos hemp]
        exact ih pages (fun q hq => hall q (List.mem_cons_of_mem p hq))
      · rw [if_neg hemp]
        rw [hall p (List.mem_cons_self p rest) boxes hlk]
        exact ih pages (fun q hq => hall q (List.mem_cons_of_mem p hq))

/-- C8: a reference id absent from the configuration yields the absent
result; a hinted page with no indexed fragments is skipped (here: the
only candidate, so the result is absent), not an exception; and when
every CANDIDATE page — `[pageHint]` if present, else the indexed
pages — yields no run, the overall result is absent. -/
theorem locate_absent_handling :
    (∀ (phrases : ℕ → Option PhraseSpec) (pages : Pages) (ref : ℕ),
        phrases ref = none → findPhraseWith phrases pages ref = none) ∧
    (∀ (phrases : ℕ → Option PhraseSpec) (pages : Pages) (ref : ℕ) (cfg : PhraseSpec) (h : ℕ),
        phrases ref = some cfg → cfg.pageHint = some h →
        (List.lookup h pages = none ∨ List.lookup h pages = some []) →
        findPhraseWith phrases pages ref = none) ∧
    (∀ (phrases : ℕ → Option PhraseSpec) (pages : Pages) (ref : ℕ) (cfg : PhraseSpec),
        phrases ref = some cfg →
        (∀ p ∈ pagesToSearch cfg pages, ∀ boxes, List.lookup p pages = some boxes →
          tryVariations boxes cfg.variations = none) →
        findPhraseWith phrases pages ref = none) := by
  refine ⟨?_, ?_, ?_⟩
  · intro phrases pages ref h
    simp [findPhraseWith, h]
  · intro phrases pages ref cfg h hcfg hhint hlk
    rw [findPhraseWith, hcfg]
    dsimp only
    rw [findPhraseCfg, pagesToSearch, hhint]
    dsimp only
    rcases hlk with h' | h'
    · rw [searchPages, h']
      rfl
    · rw [searchPages, h']
      rfl
  · intro phrases pages ref cfg hcfg hall
    rw [findPhraseWith, hcfg]
    dsimp only
    rw [findPhraseCfg]
    exact searchPages_none cfg.variations (pagesToSearch cfg pages) pages hall

/-- Witness for C8: unknown reference 99, hinted page 5 not indexed, and
an index whose only candidate page (the hinted page 3, indexed and
non-empty) yields no run for any variation of reference 1. -/
theorem locate_absent_handling_witness :
    findPhraseWith SEARCH_PHRASES goodPages 99 = none ∧
    findPhraseWith SEARCH_PHRASES goodPages 2 = none ∧
    findPhraseWith SEARCH_PHRASES missPages 1 = none :=
  ⟨locate_absent_handling.1 SEARCH_PHRASES goodPages 99 rfl,
   locate_absent_handling.2.1 SEARCH_PHRASES goodPages 2 _ 5 rfl rfl (Or.inl (by decide)),
   locate_absent_handling.2.2 SEARCH_PHRASES missPages 1
     ⟨"EBITDA of USD 2.3 bn".data,
      ["ebitda of usd 2.3 bn".data, "ebitda of usd 2.3bn".data,
       "ebitda usd 2.3 bn".data, "ebitda 2.3 bn".data,
       "ebitda of 2.3 bn".data, "2.3 bn".data], some 3⟩ rfl
     (by
       intro p hp boxes hlk
       have hp3 : p = 3 := by simpa [pagesToSearch] using hp
       subst hp3
       have hlk3 : List.lookup 3 missPages = some [missBox] := rfl
       rw [hlk3] at hlk
       obtain rfl := (Option.some.inj hlk).symm
       decide)⟩

/-! ## Claim C9 -/

/-- C9: the highlight slot holds at most one highlight — `createHighlight`
replaces any existing one (two calls in a row leave exactly the second,
with exactly one `.highlight` element in the document), `clearHighlights`
resets the slot to `null` and removes every element, and none of the
other state updates touches the highlight slot or the document. -/
theorem highlight_single_slot :
    (∀ (ce : ℕ → Bool) (p p' : ℕ) (r r' : Rect) (w : World),
        ce p' = true →
        (createHighlight ce p' r' (createHighlight ce p r w).1).1.state.currentHighlight
            = some (p', r') ∧
          (createHighlight ce p' r' (createHighlight ce p r w).1).1.highlightCount = 1) ∧
    (∀ w : World,
        (clearHighlights w).state.currentHighlight = none ∧
          (clearHighlights w).highlightCount = 0) ∧
    (∀ w : World, (onScriptLoad w).state.currentHighlight = w.state.currentHighlight ∧
        (onScriptLoad w).highlightCount = w.highlightCount) ∧
    (∀ (m : Str) (w : World),
        (onScriptError m w).state.currentHighlight = w.state.currentHighlight ∧
          (onScriptError m w).highlightCount = w.highlightCount) ∧
    (∀ w : World, (onLoadStart w).state.currentHighlight = w.state.currentHighlight ∧
        (onLoadStart w).highlightCount = w.highlightCount) ∧
    (∀ w : World, (onDocLoaded w).state.currentHighlight = w.state.currentHighlight ∧
        (onDocLoaded w).highlightCount = w.highlightCount) ∧
    (∀ w : World, (onLoadDone w).state.currentHighlight = w.state.currentHighlight ∧
        (onLoadDone w).highlightCount = w.highlightCount) ∧
    (∀ (m : Str) (w : World),
        (onLoadFail m w).state.currentHighlight = w.state.currentHighlight ∧
          (onLoadFail m w).highlightCount = w.highlightCount) := by
  refine ⟨?_, ?_, ?_, ?_, ?_, ?_, ?_, ?_⟩
  · intro ce p p' r r' w hce
    constructor
    · simp [createHighlight, clearHighlights, hce]
    · simp [createHighlight, clearHighlights, hce]
  · exact fun w => ⟨rfl, rfl⟩
  · exact fun w => ⟨rfl, rfl⟩
  · exact fun m w => ⟨rfl, rfl⟩
  · exact fun w => ⟨rfl, rfl⟩
  · exact fun w => ⟨rfl, rfl⟩
  · exact fun w => ⟨rfl, rfl⟩
  · exact fun m w => ⟨rfl, rfl⟩

/-- Witness for C9: two successive highlights on an initial world. -/
theorem highlight_single_slot_witness :
    (createHighlight (fun _ => true) 2 ⟨1, 1, 1, 1⟩
        (createHighlight (fun _ => true) 1 ⟨0, 0, 1, 1⟩
          ⟨⟨false, false, false, none, none⟩, 0⟩).1).1.state.currentHighlight
        = some (2, ⟨1, 1, 1, 1⟩) ∧
      (createHighlight (fun _ => true) 2 ⟨1, 1, 1, 1⟩
        (createHighlight (fun _ => true) 1 ⟨0, 0, 1, 1⟩
          ⟨⟨false, false, false, none, none⟩, 0⟩).1).1.highlightCount = 1 :=
  highlight_single_slot.1 (fun _ => true) 1 2 ⟨0, 0, 1, 1⟩ ⟨1, 1, 1, 1⟩
    ⟨⟨false, false, false, none, none⟩, 0⟩ rfl

/-! ## Claim C5 -/

lemma tryVariations_skip (boxes : List TextBox) (v : Str) (rest : List Str)
    (h : ¬(lowerStr v <:+: pageText boxes ∧ findMatchingTextBoxes boxes (lowerStr v) ≠ [])) :
    tryVariations boxes (v :: rest) = tryVariations boxes rest := by
  simp only [tryVariations]
  by_cases h1 : lowerStr v <:+: pageText boxes
  · rw [if_pos h1]
    have h2 : ¬0 < (findMatchingTextBoxes boxes (lowerStr v)).length := by
      intro hpos
      exact h ⟨h1, List.ne_nil_of_length_pos hpos⟩
    rw [if_neg h2]
  · rw [if_neg h1]

lemma varMatches_true_iff (boxes : List TextBox) (v : Str) :
    varMatches boxes v = true ↔
      (lowerStr v <:+: pageText boxes ∧ findMatchingTextBoxes boxes (lowerStr v) ≠ []) := by
  rw [varMatches]
  simp [List.isEmpty_iff]

lemma find?_pairs_page (pages : Pages) (p : ℕ) (boxes : List TextBox)
    (hlk : List.lookup p pages = some boxes) (hne : boxes.isEmpty = false) :
    ∀ variations : List Str,
      ((variations.map (fun v => (p, v))).find? (pairMatches pages)).map
          (fun pv => (⟨pv.1, pairRect pages pv⟩ : MatchResult))
        = (tryVariations boxes variations).map (fun r => (⟨p, r⟩ : MatchResult)) := by
  intro variations
  induction variations with
  | nil => rfl
  | cons v rest ih =>
    rw [List.map_cons]
    by_cases hv : pairMatches pages (p, v) = true
    · rw [List.find?_cons_of_pos _ hv]
      have hvm : varMatches boxes v = true := by
        rw [pairMatches, hlk] at hv
        simpa [hne] using hv
      obtain ⟨hocc, hrun⟩ := (varMatches_true_iff boxes v).mp hvm
      have htv : tryVariations boxes (v :: rest) =
          some (calculateBoundingRect (findMatchingTextBoxes boxes (lowerStr v))) := by
        simp only [tryVariations]
        rw [if_pos hocc, if_pos (List.length_pos.mpr hrun)]
      rw [htv]
      simp [pairRect, hlk]
    · rw [List.find?_cons_of_neg _ hv]
      have hnm : ¬(lowerStr v <:+: pageText boxes ∧
          findMatchingTextBoxes boxes (lowerStr v) ≠ []) := by
        intro hc
        apply hv
        rw [pairMatches, hlk]
        simp [hne, (varMatches_true_iff boxes v).mpr hc]
      rw [tryVariations_skip boxes v rest hnm]
      exact ih

lemma searchPages_eq_locate (variations : List Str) :
    ∀ (ps : List ℕ) (pages : Pages),
      searchPages variations ps pages =
        ((ps.flatMap (fun p => variations.map (fun v => (p, v)))).find?
            (pairMatches pages)).map
          (fun pv => (⟨pv.1, pairRect pages pv⟩ : MatchResult)) := by
  intro ps
  induction ps with
  | nil => intro pages; rfl
  | cons p rest ih =>
    intro pages
    rw [searchPages, List.flatMap_cons, List.find?_append]
    cases hlk : List.lookup p pages with
    | none =>
      have hnone : (variations.map (fun v => (p, v))).find? (pairMatches pages) = none := by
        rw [List.find?_eq_none]
        intro x hx
        obtain ⟨v, _, rfl⟩ := List.mem_map.mp hx
        simp [pairMatches, hlk]
      rw [hnone, Option.none_or]
      exact ih pages
    | some boxes =>
      dsimp only
      by_cases hemp : boxes.isEmpty
      · rw [if_pos hemp]
        have hnone : (variations.map (fun v => (p, v))).find? (pairMatches pages) = none := by
          rw [List.find?_eq_none]
          intro x hx
          obtain ⟨v, _, rfl⟩ := List.mem_map.mp hx
          simp [pairMatches, hlk, hemp]
        rw [hnone, Option.none_or]
        exact ih pages
      · rw [if_neg hemp]
        have hpage := find?_pairs_page pages p boxes hlk (by simpa using hemp) variations
        cases htv : tryVariations boxes variations with
        | none =>
          rw [htv] at hpage
          have : (variations.map (fun v => (p, v))).find? (pairMatches pages) = none :=
            Option.map_eq_none'.mp (by rw [hpage]; rfl)
          rw [this, Option.none_or]
          exact ih pages
        | some rect =>
          rw [htv] at hpage
          dsimp only
          cases hfd : (variations.map (fun v => (p, v))).find? (pairMatches pages) with
          | none =>
            rw [hfd] at hpage
            exact absurd hpage (by simp)
          | some pv =>
            rw [hfd] at hpage
            rw [Option.or_some]
            simp only [Option.map_some'] at hpage ⊢
            exact hpage.symm

/-- C5: `findPhrase` searches exactly `[pageHint]` when a hint is present
and otherwise all indexed page numbers in ascending order, and it returns
the result of the first candidate (page, variation) pair — pages in
candidate order, variations in listed order — that matches, never a
later or "better" one (`locateSpec` is that first-match description). -/
theorem locate_first_match :
    (∀ (cfg : PhraseSpec) (pages : Pages),
        findPhraseCfg cfg pages = locateSpec cfg pages) ∧
    (∀ (cfg : PhraseSpec) (pages : Pages) (h : ℕ),
        cfg.pageHint = some h → pagesToSearch cfg pages = [h]) ∧
    (∀ (cfg : PhraseSpec) (pages : Pages), cfg.pageHint = none →
        (pagesToSearch cfg pages).Sorted (· ≤ ·) ∧
          ∀ p, p ∈ pagesToSearch cfg pages ↔ p ∈ pages.map Prod.fst) := by
  refine ⟨?_, ?_, ?_⟩
  · intro cfg pages
    rw [findPhraseCfg, locateSpec]
    exact searchPages_eq_locate cfg.variations (pagesToSearch cfg pages) pages
  · intro cfg pages h hh
    rw [pagesToSearch, hh]
  · intro cfg pages hh
    rw [pagesToSearch, hh]
    refine ⟨List.sorted_insertionSort _ _, ?_⟩
    intro p
    rw [jsObjectKeys]
    constructor
    · intro hp
      exact List.mem_dedup.mp ((List.perm_insertionSort _ _).mem_iff.mp hp)
    · intro hp
      exact (List.perm_insertionSort _ _).mem_iff.mpr (List.mem_dedup.mpr hp)

/-- Witness for C5 at reference 1's configuration on a concrete index. -/
theorem locate_first_match_witness :
    findPhraseCfg ⟨"EBITDA of USD 2.3 bn".data, ["ebitda of usd 2.3 bn".data], some 3⟩ goodPages
        = locateSpec ⟨"EBITDA of USD 2.3 bn".data, ["ebitda of usd 2.3 bn".data], some 3⟩ goodPages ∧
      pagesToSearch ⟨"EBITDA of USD 2.3 bn".data, ["ebitda of usd 2.3 bn".data], some 3⟩ goodPages
        = [3] :=
  ⟨locate_first_match.1 _ goodPages, locate_first_match.2.1 _ goodPages 3 rfl⟩

/-! ## Claim C6: congruence under case normalisation -/

lemma normBox_str (b : TextBox) : (normBox b).str = lowerStr b.str := rfl

lemma normBox_left (b : TextBox) : (normBox b).left = b.left := rfl

lemma normBox_top (b : TextBox) : (normBox b).top = b.top := rfl

lemma normBox_width (b : TextBox) : (normBox b).width = b.width := rfl

lemma normBox_height (b : TextBox) : (normBox b).height = b.height := rfl

lemma normBox_str_length (b : TextBox) : (normBox b).str.length = b.str.length := by
  rw [normBox_str, lowerStr, List.length_map]

lemma intersperse_map_map (f : Char → Char) (sep : Str) :
    ∀ l : List Str, (l.intersperse sep).map (List.map f)
      = (l.map (List.map f)).intersperse (sep.map f) := by
  intro l
  induction l with
  | nil => rfl
  | cons a l ih =>
    cases l with
    | nil => rfl
    | cons b t =>
      simp only [List.intersperse_cons_cons, List.map_cons, ih]

lemma lowerStr_intercalate (l : List Str) :
    lowerStr (List.intercalate [' '] l) = List.intercalate [' '] (l.map lowerStr) := by
  have hsp : ([' '] : Str).map Char.toLower = [' '] := by decide
  rw [List.intercalate, List.intercalate, lowerStr, List.map_flatten,
    intersperse_map_map, hsp]
  rfl

lemma pageText_norm (boxes : List TextBox) :
    pageText boxes = List.intercalate [' '] ((boxes.map normBox).map (·.str)) := by
  rw [pageText, lowerStr_intercalate, List.map_map, List.map_map]
  rfl

lemma normBox_getD (l : List TextBox) (i : ℕ) :
    normBox (l.getD i defaultBox) = (l.map normBox).getD i defaultBox := by
  rw [List.getD_eq_getElem?_getD, List.getD_eq_getElem?_getD, List.getElem?_map]
  cases l[i]? <;> rfl

lemma addBox_norm (boxes boxes' : List TextBox) (i : ℕ) (st st' : Str × List TextBox)
    (hb : boxes.map normBox = boxes'.map normBox)
    (h1 : st.1 = st'.1) (h2 : st.2.map normBox = st'.2.map normBox) :
    (addBox boxes i st).1 = (addBox boxes' i st').1 ∧
      (addBox boxes i st).2.map normBox = (addBox boxes' i st').2.map normBox := by
  have hgd : normBox (boxes.getD i defaultBox) = normBox (boxes'.getD i defaultBox) := by
    rw [normBox_getD, normBox_getD, hb]
  constructor
  · rw [addBox, addBox]
    show st.1 ++ lowerStr (boxes.getD i defaultBox).str
        = st'.1 ++ lowerStr (boxes'.getD i defaultBox).str
    rw [h1, ← normBox_str, ← normBox_str, hgd]
  · rw [addBox, addBox]
    show (st.2 ++ [boxes.getD i defaultBox]).map normBox
        = (st'.2 ++ [boxes'.getD i defaultBox]).map normBox
    rw [List.map_append, List.map_append, h2, List.map_singleton, List.map_singleton, hgd]

lemma trimWindow_norm (boxes boxes' : List TextBox) (s : Str) (i : ℕ)
    (st st' : Str × List TextBox)
    (hb : boxes.map normBox = boxes'.map normBox)
    (h1 : st.1 = st'.1) (h2 : st.2.map normBox = st'.2.map normBox) :
    (trimWindow boxes s i st).1 = (trimWindow boxes' s i st').1 ∧
      (trimWindow boxes s i st).2.map normBox = (trimWindow boxes' s i st').2.map normBox := by
  have hlen : (boxes.getD (i - 10) defaultBox).str.length
      = (boxes'.getD (i - 10) defaultBox).str.length := by
    rw [← normBox_str_length, normBox_getD, hb, ← normBox_getD, normBox_str_length]
  rw [trimWindow, trimWindow, ← h1]
  by_cases hc : s.length * 3 < st.1.length
  · rw [if_pos hc, if_pos hc]
    constructor
    · rw [h1, hlen]
    · show (st.2.drop 1).map normBox = (st'.2.drop 1).map normBox
      rw [List.map_drop, List.map_drop, h2]
  · rw [if_neg hc, if_neg hc]
    exact ⟨h1, h2⟩

lemma findMatchingTextBoxesGo_norm (boxes boxes' : List TextBox) (s : Str)
    (hb : boxes.map normBox = boxes'.map normBox) :
    ∀ (rem rem' : List TextBox) (i : ℕ) (st st' : Str × List TextBox),
      rem.map normBox = rem'.map normBox →
      st.1 = st'.1 → st.2.map normBox = st'.2.map normBox →
      (findMatchingTextBoxesGo boxes s rem i st).map normBox =
        (findMatchingTextBoxesGo boxes' s rem' i st').map normBox := by
  intro rem
  induction rem with
  | nil =>
    intro rem' i st st' hr h1 h2
    cases rem' with
    | nil => rfl
    | cons c' rem'' => exact absurd hr (by simp)
  | cons c rem ih =>
    intro rem' i st st' hr h1 h2
    cases rem' with
    | nil => exact absurd hr (by simp)
    | cons c' rem'' =>
      rw [List.map_cons, List.map_cons, List.cons.injEq] at hr
      obtain ⟨hadd1, hadd2⟩ := addBox_norm boxes boxes' i st st' hb h1 h2
      rw [findMatchingTextBoxesGo, findMatchingTextBoxesGo]
      rw [← hadd1]
      by_cases hocc : s <:+: (addBox boxes i st).1
      · rw [if_pos hocc, if_pos hocc]
        exact hadd2
      · rw [if_neg hocc, if_neg hocc]
        obtain ⟨ht1, ht2⟩ := trimWindow_norm boxes boxes' s i _ _ hb hadd1 hadd2
        exact ih rem'' (i + 1) _ _ hr.2 ht1 ht2

lemma findMatchingTextBoxes_norm (boxes boxes' : List TextBox) (s : Str)
    (hb : boxes.map normBox = boxes'.map normBox) :
    (findMatchingTextBoxes boxes s).map normBox =
      (findMatchingTextBoxes boxes' s).map normBox :=
  findMatchingTextBoxesGo_norm boxes boxes' s hb boxes boxes' 0 ([], []) ([], []) hb rfl rfl

lemma foldl_norm (φ : Option ℚ → TextBox → Option ℚ)
    (hφ : ∀ a b, φ a (normBox b) = φ a b) :
    ∀ (t t' : List TextBox), t.map normBox = t'.map normBox →
      ∀ a, t.foldl φ a = t'.foldl φ a := by
  intro t
  induction t with
  | nil =>
    intro t' h a
    cases t' with
    | nil => rfl
    | cons c' t'' => exact absurd h (by simp)
  | cons c t ih =>
    intro t' h a
    cases t' with
    | nil => exact absurd h (by simp)
    | cons c' t'' =>
      rw [List.map_cons, List.map_cons, List.cons.injEq] at h
      rw [List.foldl_cons, List.foldl_cons]
      have hc : φ a c = φ a c' := by rw [← hφ a c, ← hφ a c', h.1]
      rw [hc]
      exact ih t'' h.2 _

lemma calculateBoundingRect_norm (l l' : List TextBox)
    (h : l.map normBox = l'.map normBox) :
    calculateBoundingRect l = calculateBoundingRect l' := by
  cases l with
  | nil =>
    cases l' with
    | nil => rfl
    | cons c' t' => exact absurd h (by simp)
  | cons c t =>
    cases l' with
    | nil => exact absurd h (by simp)
    | cons c' t' =>
      rw [List.map_cons, List.map_cons, List.cons.injEq] at h
      obtain ⟨hc, ht⟩ := h
      have hleft : c.left = c'.left := by
        rw [← normBox_left c, ← normBox_left c', hc]
      have htop : c.top = c'.top := by
        rw [← normBox_top c, ← normBox_top c', hc]
      have hwidth : c.width = c'.width := by
        rw [← normBox_width c, ← normBox_width c', hc]
      have hheight : c.height = c'.height := by
        rw [← normBox_height c, ← normBox_height c', hc]
      rw [calculateBoundingRect_cons, calculateBoundingRect_cons,
        hleft, htop, hwidth, hheight,
        foldl_norm (fun a b => updMin a b.left) (fun a b => rfl) t t' ht,
        foldl_norm (fun a b => updMin a b.top) (fun a b => rfl) t t' ht,
        foldl_norm (fun a b => updMax a (b.left + b.width)) (fun a b => rfl) t t' ht,
        foldl_norm (fun a b => updMax a (b.top + b.height)) (fun a b => rfl) t t' ht]

lemma tryVariations_norm (boxes boxes' : List TextBox)
    (hb : boxes.map normBox = boxes'.map normBox) :
    ∀ (vars vars' : List Str), vars.map lowerStr = vars'.map lowerStr →
      tryVariations boxes vars = tryVariations boxes' vars' := by
  intro vars
  induction vars with
  | nil =>
    intro vars' h
    cases vars' with
    | nil => rfl
    | cons v' rest' => exact absurd h (by simp)
  | cons v rest ih =>
    intro vars' h
    cases vars' with
    | nil => exact absurd h (by simp)
    | cons v' rest' =>
      rw [List.map_cons, List.map_cons, List.cons.injEq] at h
      obtain ⟨hv, hrest⟩ := h
      have hpt : pageText boxes = pageText boxes' := by
        rw [pageText_norm, pageText_norm, hb]
      have hfm : (findMatchingTextBoxes boxes (lowerStr v')).map normBox
          = (findMatchingTextBoxes boxes' (lowerStr v')).map normBox :=
        findMatchingTextBoxes_norm boxes boxes' (lowerStr v') hb
      have hlen : (findMatchingTextBoxes boxes (lowerStr v')).length
          = (findMatchingTextBoxes boxes' (lowerStr v')).length := by
        have h' := congrArg List.length hfm
        rw [List.length_map, List.length_map] at h'
        exact h'
      simp only [tryVariations]
      rw [hv, hpt]
      by_cases hocc : lowerStr v' <:+: pageText boxes'
      · rw [if_pos hocc, if_pos hocc]
        rw [hlen]
        by_cases hpos : 0 < (findMatchingTextBoxes boxes' (lowerStr v')).length
        · rw [if_pos hpos, if_pos hpos]
          rw [calculateBoundingRect_norm _ _ hfm]
        · rw [if_neg hpos, if_neg hpos]
          exact ih rest' hrest
      · rw [if_neg hocc, if_neg hocc]
        exact ih rest' hrest

lemma lookup_norm (pages pages' : Pages) (hp : normPages pages = normPages pages') (p : ℕ) :
    Option.map (List.map normBox) (List.lookup p pages)
      = Option.map (List.map normBox) (List.lookup p pages') := by
  induction pages generalizing pages' with
  | nil =>
    cases pages' with
    | nil => rfl
    | cons e' rest' => exact absurd hp (by simp [normPages])
  | cons e rest ih =>
    cases pages' with
    | nil => exact absurd hp (by simp [normPages])
    | cons e' rest' =>
      rw [normPages, normPages, List.map_cons, List.map_cons, List.cons.injEq] at hp
      obtain ⟨he, hrest⟩ := hp
      rw [Prod.mk.injEq] at he
      obtain ⟨hk, hbs⟩ := he
      rw [List.lookup, List.lookup, hk]
      cases hpe : p == e'.1 with
      | true =>
        dsimp only
        rw [Option.map_some', Option.map_some', hbs]
      | false =>
        dsimp only
        exact ih rest' hrest

lemma searchPages_norm (vars vars' : List Str)
    (hv : vars.map lowerStr = vars'.map lowerStr)
    (pages pages' : Pages) (hp : normPages pages = normPages pages') :
    ∀ ps : List ℕ, searchPages vars ps pages = searchPages vars' ps pages' := by
  intro ps
  induction ps with
  | nil => rfl
  | cons p rest ih =>
    rw [searchPages, searchPages]
    have hlk := lookup_norm pages pages' hp p
    cases h1 : List.lookup p pages with
    | none =>
      rw [h1, Option.map_none'] at hlk
      have h2 : List.lookup p pages' = none := Option.map_eq_none'.mp hlk.symm
      rw [h2]
      exact ih
    | some boxes =>
      rw [h1, Option.map_some'] at hlk
      cases h2 : List.lookup p pages' with
      | none =>
        rw [h2, Option.map_none'] at hlk
        exact absurd hlk (by simp)
      | some boxes' =>
        rw [h2, Option.map_some'] at hlk
        have hbb : boxes.map normBox = boxes'.map normBox := Option.some.inj hlk
        dsimp only
        have hemp : boxes.isEmpty = boxes'.isEmpty := by
          cases boxes with
          | nil =>
            cases boxes' with
            | nil => rfl
            | cons c' t' => exact absurd hbb (by simp)
          | cons c t =>
            cases boxes' with
            | nil => exact absurd hbb (by simp)
            | cons c' t' => rfl
        rw [hemp]
        by_cases he : boxes'.isEmpty
        · rw [if_pos he, if_pos he]
          exact ih
        · rw [if_neg he, if_neg he]
          rw [tryVariations_norm boxes boxes' hbb vars vars' hv]
          cases tryVariations boxes' vars' with
          | none => exact ih
          | some rect => rfl

/-- C6: the coarse existence check is an exact substring test of the
lowercased variation against the page search string — the lowercase
space-joined concatenation of the page's fragment texts in stored
order — and matching performs no normalisation beyond case folding:
changing only the letter case of the indexed fragment texts and of the
variations never changes the result of `findPhrase`. -/
theorem locate_case_insensitive :
    (∀ boxes : List TextBox,
        pageText boxes = lowerStr (List.intercalate [' '] (boxes.map (·.str)))) ∧
    (∀ (cfg cfg' : PhraseSpec) (pages pages' : Pages),
        cfg.variations.map lowerStr = cfg'.variations.map lowerStr →
        cfg.pageHint = cfg'.pageHint →
        normPages pages = normPages pages' →
        findPhraseCfg cfg pages = findPhraseCfg cfg' pages') := by
  refine ⟨fun _ => rfl, ?_⟩
  intro cfg cfg' pages pages' hv hh hp
  have hkeys : pages.map Prod.fst = pages'.map Prod.fst := by
    have h1 := congrArg (List.map Prod.fst) hp
    rw [normPages, normPages, List.map_map, List.map_map] at h1
    exact h1
  have hps : pagesToSearch cfg pages = pagesToSearch cfg' pages' := by
    rw [pagesToSearch, pagesToSearch, hh]
    cases cfg'.pageHint with
    | some h => rfl
    | none =>
      dsimp only
      rw [jsObjectKeys, jsObjectKeys, hkeys]
  rw [findPhraseCfg, findPhraseCfg, hps]
  exact searchPages_norm cfg.variations cfg'.variations hv pages pages' hp _

/-- Witness for C6: the source text "EBITDA of USD 2.3 bn" versus its
lowercase form gives the same located result. -/
theorem locate_case_insensitive_witness :
    findPhraseCfg ⟨"EBITDA of USD 2.3 bn".data, ["ebitda of usd 2.3 bn".data], some 3⟩ upperPages
      = findPhraseCfg ⟨"EBITDA of USD 2.3 bn".data, ["EBITDA of USD 2.3 bn".data], some 3⟩ goodPages :=
  locate_case_insensitive.2
    ⟨"EBITDA of USD 2.3 bn".data, ["ebitda of usd 2.3 bn".data], some 3⟩
    ⟨"EBITDA of USD 2.3 bn".data, ["EBITDA of USD 2.3 bn".data], some 3⟩
    upperPages goodPages (by decide) rfl (by decide)

end App
